/-
Verification of the bubblerot overlay generator (generateOverlay.js) against
its natural-language specification.

The development shallowly embeds the parts of the program the claims touch:
the frame-streaming loop (probeVideo rounding, frameCount, sendFrame), the
physics update (sub-stepping, per-ring collision test, bounce resolution,
ring shrink / removal / refill, escape reset), and the scene data model
(rings, ball, particle pools).  Real-valued quantities of the source are
modelled over the exact reals; the JavaScript random() draws are passed in
explicitly as parameters in [0, 1]; the exact-frame counters are modelled
over the integers and rationals.
-/
import Mathlib

/-! ## Frame streamer (probeVideo, FPS, frameCount, sendFrame)

Source: generateOverlay.js.  The probe returns width, height, fps (a float)
and duration; the program sets FPS := Math.round(meta.fps) and
frameCount := Math.ceil(meta.duration * FPS).  sendFrame writes one
width*height*4 byte buffer per call, increments the frame counter, recurses
while frame < frameCount and ends the encoder input stream afterwards. -/

/-- An event on the encoder input channel: a raw frame of a given byte
length, or the end-of-stream close of the channel. -/
inductive StreamEvent where
  | frame (idx : Nat) (byteLen : Nat)
  | closeInput
deriving DecidableEq, Repr

/-- FPS as computed by the source: Math.round of the probed fps.  For
nonnegative finite x, Math.round x = floor (x + 1/2), which is the
mathematical round. -/
def roundFPS (fps : ℚ) : ℤ := round fps

/-- frameCount as computed by the source: Math.ceil (duration * FPS). -/
def frameCount (duration : ℚ) (FPS : ℤ) : ℤ := ⌈duration * (FPS : ℚ)⌉

/-- The recursion of sendFrame: emit the current frame (width * height * 4
bytes), increment the counter, recurse while frame + 1 < frameCount would
keep a further call running (the source tests frame < frameCount after the
increment), otherwise end the input channel. -/
def sendFrame (W H : Nat) (fc : ℤ) (frame : Nat) : List StreamEvent :=
  StreamEvent.frame frame (W * H * 4) ::
    (if h : (frame : ℤ) + 1 < fc then sendFrame W H fc (frame + 1)
     else [StreamEvent.closeInput])
termination_by (fc - (frame : ℤ)).toNat
decreasing_by omega

/-- The whole stream produced for a probe result: the source invokes
sendFrame once unconditionally with frame = 0. -/
def streamEvents (W H : Nat) (duration fps : ℚ) : List StreamEvent :=
  sendFrame W H (frameCount duration (roundFPS fps)) 0

/-- The stream the spec describes: frames 0 .. n-1 of width*height*4 bytes
each, in index order, then the close of the channel. -/
def idealStream (W H n : Nat) : List StreamEvent :=
  (List.range n).map (fun i => StreamEvent.frame i (W * H * 4)) ++
    [StreamEvent.closeInput]

theorem sendFrame_eq_of_lt (W H : Nat) (fc : ℤ) (frame : Nat)
    (h : (frame : ℤ) < fc) :
    sendFrame W H fc frame =
      ((List.range' frame (fc - (frame : ℤ)).toNat).map
        (fun i => StreamEvent.frame i (W * H * 4))) ++ [StreamEvent.closeInput] := by
  have hn : (fc - (frame : ℤ)).toNat ≠ 0 := by omega
  obtain ⟨n, hn'⟩ : ∃ n, (fc - (frame : ℤ)).toNat = n + 1 :=
    ⟨(fc - (frame : ℤ)).toNat - 1, by omega⟩
  induction n generalizing frame with
  | zero =>
      rw [sendFrame, dif_neg (by omega), hn']
      simp [List.range']
  | succ m ih =>
      rw [sendFrame, dif_pos (by omega : (frame : ℤ) + 1 < fc), hn']
      rw [ih (frame + 1) (by omega) (by omega) (by omega)]
      have : (fc - ((frame : ℤ) + 1)).toNat = m + 1 := by omega
      rw [show ((frame + 1 : Nat) : ℤ) = (frame : ℤ) + 1 by push_cast; ring, this]
      simp [List.range'_succ]

/-- Claim C2 (amended form as a helper): with a positive frame count the
stream is exactly the ideal stream. -/
theorem streamEvents_eq_ideal (W H : Nat) (duration fps : ℚ)
    (h : 0 < frameCount duration (roundFPS fps)) :
    streamEvents W H duration fps =
      idealStream W H (frameCount duration (roundFPS fps)).toNat := by
  rw [streamEvents, idealStream, sendFrame_eq_of_lt W H _ 0 (by exact_mod_cast h)]
  rw [List.range_eq_range']
  norm_num

/-- Claim C2, counterexample to the claim as stated: for the probe result
duration = 1, fps = 2/5 (so FPS = round (2/5) = 0) the computed frame count
ceil (duration * FPS) is 0, yet the loop still emits one frame of
width * height * 4 bytes before closing the channel, because sendFrame is
invoked once unconditionally. -/
theorem claim2_counterexample :
    frameCount 1 (roundFPS (2 / 5)) = 0 ∧
    streamEvents 4 4 1 (2 / 5) =
      [StreamEvent.frame 0 64, StreamEvent.closeInput] := by
  have h0 : frameCount 1 (roundFPS (2 / 5)) = 0 := by
    norm_num [frameCount, roundFPS, round_eq]
  refine ⟨h0, ?_⟩
  rw [streamEvents, sendFrame, dif_neg (by rw [h0]; norm_num)]

/-- Claim C2 (amended): for every probe result with duration > 0 whose
rounded fps is at least 1, the frame loop emits exactly
ceil (duration * round fps) frames to the encoder input channel, each of
exactly width * height * 4 bytes, in frame-index order, and closes the
channel after the last frame. -/
theorem claim2_frame_stream (W H : Nat) (duration fps : ℚ)
    (hdur : 0 < duration) (hfps : 1 ≤ roundFPS fps) :
    streamEvents W H duration fps =
      idealStream W H (frameCount duration (roundFPS fps)).toNat := by
  have hpos : 0 < frameCount duration (roundFPS fps) := by
    refine Int.ceil_pos.mpr ?_
    have : (1 : ℚ) ≤ (roundFPS fps : ℚ) := by exact_mod_cast hfps
    nlinarith
  exact streamEvents_eq_ideal W H duration fps hpos

/-- Witness for claim C2 at the concrete probe duration = 1, fps = 1 with a
2 x 2 frame: one frame of 16 bytes then the close. -/
theorem claim2_frame_stream_witness :
    streamEvents 2 2 1 1 =
      idealStream 2 2 (frameCount 1 (roundFPS 1)).toNat ∧
    (frameCount 1 (roundFPS 1)).toNat = 1 :=
  ⟨claim2_frame_stream 2 2 1 1 (by norm_num)
      (by norm_num [roundFPS, round_eq]),
    by norm_num [frameCount, roundFPS, round_eq]⟩

/-! ## Bounce resolution (update, lines with the COLLISION DETECTED block)

The source reflects the velocity about the radial normal, applies a random
energy factor (a boost of at least 1 or a damp of at most 1, chosen by a
biased coin), rescales the speed into [MIN_BALL_SPEED, MAX_BALL_SPEED], and
finally perturbs the direction by a bounded random angle while keeping the
speed.  Every Math.random() draw is a parameter u. -/

/-- Math.hypot of two arguments. -/
noncomputable def hypot (x y : ℝ) : ℝ := Real.sqrt (x ^ 2 + y ^ 2)

/-- The source helper rand(min, max) = Math.random() * (max - min) + min,
with the random draw u passed explicitly. -/
def rand (u lo hi : ℝ) : ℝ := u * (hi - lo) + lo

def MIN_ENERGY_FACTOR : ℝ := 0.85

def MAX_ENERGY_FACTOR : ℝ := 1.15

def ENERGY_CHANCE_BOOST : ℝ := 0.6

def BOUNCE_RANDOMNESS : ℝ := 0.2

/-- MIN_BALL_SPEED = SHORTER * 0.2. -/
def MIN_BALL_SPEED (shorter : ℝ) : ℝ := shorter * 0.2

/-- MAX_BALL_SPEED = SHORTER * 0.8. -/
def MAX_BALL_SPEED (shorter : ℝ) : ℝ := shorter * 0.8

/-- Velocity reflection about the radial normal:
v := v - 2 (v . n) n, componentwise as in the source. -/
def reflect (vx vy nx ny : ℝ) : ℝ × ℝ :=
  (vx - 2 * (vx * nx + vy * ny) * nx, vy - 2 * (vx * nx + vy * ny) * ny)

open Classical in
/-- The energy factor finally applied: a random factor in
[MIN_ENERGY_FACTOR, MAX_ENERGY_FACTOR]; with probability
ENERGY_CHANCE_BOOST * (1 - speedRatio * 0.8) the factor is raised to at
least 1 (boost), otherwise lowered to at most 1 (damp). -/
noncomputable def finalEnergyFactor (maxSpeed uE uB vx vy : ℝ) : ℝ :=
  if uB < ENERGY_CHANCE_BOOST * (1 - hypot vx vy / maxSpeed * 0.8) then
    max 1 (rand uE MIN_ENERGY_FACTOR MAX_ENERGY_FACTOR)
  else
    min 1 (rand uE MIN_ENERGY_FACTOR MAX_ENERGY_FACTOR)

/-- ball.vx *= finalFactor; ball.vy *= finalFactor. -/
noncomputable def energyScale (maxSpeed uE uB vx vy : ℝ) : ℝ × ℝ :=
  (vx * finalEnergyFactor maxSpeed uE uB vx vy,
   vy * finalEnergyFactor maxSpeed uE uB vx vy)

open Classical in
/-- The speed clamp of the source: if the speed fell below MIN_BALL_SPEED
scale it up to the minimum, if it rose above MAX_BALL_SPEED scale it down
to the maximum, otherwise leave the velocity alone. -/
noncomputable def clampSpeed (minS maxS vx vy : ℝ) : ℝ × ℝ :=
  if hypot vx vy < minS then
    (vx * (minS / hypot vx vy), vy * (minS / hypot vx vy))
  else if maxS < hypot vx vy then
    (vx * (maxS / hypot vx vy), vy * (maxS / hypot vx vy))
  else (vx, vy)

/-- Math.atan2 (y, x), modelled by the complex argument of x + y i
(both have range (-pi, pi]). -/
noncomputable def atan2 (y x : ℝ) : ℝ := Complex.arg ⟨x, y⟩

/-- The bounded random direction perturbation of the source: keep the
current speed, rotate the velocity to angle
atan2 (vy, vx) + rand (-BOUNCE_RANDOMNESS, BOUNCE_RANDOMNESS). -/
noncomputable def perturbDirection (u vx vy : ℝ) : ℝ × ℝ :=
  (Real.cos (atan2 vy vx + rand u (-BOUNCE_RANDOMNESS) BOUNCE_RANDOMNESS) *
      hypot vx vy,
   Real.sin (atan2 vy vx + rand u (-BOUNCE_RANDOMNESS) BOUNCE_RANDOMNESS) *
      hypot vx vy)

/-- The full post-reflection velocity pipeline of one bounce: reflect,
energy scale, clamp, perturb. -/
noncomputable def resolveBounceVelocity (minS maxS uE uB uA vx vy nx ny : ℝ) :
    ℝ × ℝ :=
  perturbDirection uA
    (clampSpeed minS maxS
      (energyScale maxS uE uB (reflect vx vy nx ny).1 (reflect vx vy nx ny).2).1
      (energyScale maxS uE uB (reflect vx vy nx ny).1 (reflect vx vy nx ny).2).2).1
    (clampSpeed minS maxS
      (energyScale maxS uE uB (reflect vx vy nx ny).1 (reflect vx vy nx ny).2).1
      (energyScale maxS uE uB (reflect vx vy nx ny).1 (reflect vx vy nx ny).2).2).2

theorem hypot_nonneg (x y : ℝ) : 0 ≤ hypot x y := Real.sqrt_nonneg _

theorem hypot_zero : hypot 0 0 = 0 := by simp [hypot]

theorem hypot_mul_right (x y c : ℝ) :
    hypot (x * c) (y * c) = hypot x y * |c| := by
  rw [hypot, hypot, show (x * c) ^ 2 + (y * c) ^ 2 = (x ^ 2 + y ^ 2) * c ^ 2 by
    ring]
  rw [Real.sqrt_mul (by positivity), Real.sqrt_sq_eq_abs]

/-- Mirror reflection about a unit normal preserves the speed. -/
theorem reflect_hypot (vx vy nx ny : ℝ) (hn : nx ^ 2 + ny ^ 2 = 1) :
    hypot (reflect vx vy nx ny).1 (reflect vx vy nx ny).2 = hypot vx vy := by
  rw [reflect, hypot, hypot]
  congr 1
  linear_combination (4 * (vx * nx + vy * ny) ^ 2) * hn

theorem finalEnergyFactor_lower (maxSpeed uE uB vx vy : ℝ) (huE : 0 ≤ uE) :
    (85 / 100 : ℝ) ≤ finalEnergyFactor maxSpeed uE uB vx vy := by
  rw [finalEnergyFactor]
  split
  · exact le_trans (by norm_num) (le_max_left _ _)
  · refine le_min (by norm_num) ?_
    rw [rand, MIN_ENERGY_FACTOR, MAX_ENERGY_FACTOR]
    nlinarith

theorem clampSpeed_mem (minS maxS vx vy : ℝ) (h0 : 0 ≤ minS)
    (hle : minS ≤ maxS) (hv : 0 < hypot vx vy) :
    minS ≤ hypot (clampSpeed minS maxS vx vy).1 (clampSpeed minS maxS vx vy).2 ∧
    hypot (clampSpeed minS maxS vx vy).1 (clampSpeed minS maxS vx vy).2 ≤ maxS := by
  rw [clampSpeed]
  split
  · rename_i hlt
    rw [hypot_mul_right, abs_of_nonneg (div_nonneg h0 (le_of_lt hv)), mul_comm,
      div_mul_cancel₀ _ (ne_of_gt hv)]
    exact ⟨le_refl _, hle⟩
  · rename_i hge
    split
    · rename_i hgt
      rw [hypot_mul_right,
        abs_of_nonneg (div_nonneg (le_trans h0 hle) (le_of_lt hv)), mul_comm,
        div_mul_cancel₀ _ (ne_of_gt hv)]
      exact ⟨hle, le_refl _⟩
    · rename_i hle2
      exact ⟨le_of_not_lt hge, le_of_not_lt hle2⟩

/-- The direction perturbation keeps the speed exactly. -/
theorem perturbDirection_hypot (u vx vy : ℝ) :
    hypot (perturbDirection u vx vy).1 (perturbDirection u vx vy).2 =
      hypot vx vy := by
  rw [perturbDirection, hypot]
  have h := Real.sin_sq_add_cos_sq
    (atan2 vy vx + rand u (-BOUNCE_RANDOMNESS) BOUNCE_RANDOMNESS)
  rw [show (Real.cos (atan2 vy vx + rand u (-BOUNCE_RANDOMNESS) BOUNCE_RANDOMNESS) *
        hypot vx vy) ^ 2 +
      (Real.sin (atan2 vy vx + rand u (-BOUNCE_RANDOMNESS) BOUNCE_RANDOMNESS) *
        hypot vx vy) ^ 2 = hypot vx vy ^ 2 by nlinarith]
  exact Real.sqrt_sq (hypot_nonneg vx vy)

/-- Claim C1, counterexample to the claim as stated: the claim quantifies
over every incoming velocity, but for an incoming velocity of zero the
speed clamp divides by the zero speed (the source produces NaN there; the
exact model keeps the zero velocity), so the post-bounce speed is 0, below
MIN_BALL_SPEED.  With SHORTER = 5 the bounds are [1, 4]. -/
theorem claim1_counterexample :
    hypot
        (resolveBounceVelocity (MIN_BALL_SPEED 5) (MAX_BALL_SPEED 5)
          0 0 0 0 0 1 0).1
        (resolveBounceVelocity (MIN_BALL_SPEED 5) (MAX_BALL_SPEED 5)
          0 0 0 0 0 1 0).2 <
      MIN_BALL_SPEED 5 := by
  have h1 : reflect 0 0 1 0 = (0, 0) := by rw [reflect]; norm_num
  have h2 : ∀ mS u1 u2 : ℝ, energyScale mS u1 u2 0 0 = (0, 0) := by
    intro mS u1 u2; rw [energyScale]; norm_num
  have h3 : ∀ mS MS : ℝ, clampSpeed mS MS 0 0 = (0, 0) := by
    intro mS MS
    rw [clampSpeed]
    split
    · norm_num
    · split
      · norm_num
      · rfl
  have h4 : ∀ u : ℝ, perturbDirection u 0 0 = (0, 0) := by
    intro u; rw [perturbDirection, hypot_zero]; norm_num
  rw [resolveBounceVelocity, h1]
  simp only [h2, h3, h4]
  rw [hypot_zero, MIN_BALL_SPEED]
  norm_num

/-- Claim C1 (amended): for every bounce whose incoming velocity has
positive magnitude (true of every reachable ball state, since resets give
the ball speed BALL_SPEED and every bounce leaves the speed clamped), the
speed after the energy factor, the clamp and the bounded random direction
perturbation lies in [MIN_BALL_SPEED, MAX_BALL_SPEED] inclusive, for every
unit radial normal and all random draws with 0 <= uE. -/
theorem claim1_post_bounce_speed (shorter uE uB uA vx vy nx ny : ℝ)
    (hs : 0 ≤ shorter) (hn : nx ^ 2 + ny ^ 2 = 1)
    (hv : 0 < hypot vx vy) (huE : 0 ≤ uE) :
    MIN_BALL_SPEED shorter ≤
      hypot
        (resolveBounceVelocity (MIN_BALL_SPEED shorter) (MAX_BALL_SPEED shorter)
          uE uB uA vx vy nx ny).1
        (resolveBounceVelocity (MIN_BALL_SPEED shorter) (MAX_BALL_SPEED shorter)
          uE uB uA vx vy nx ny).2 ∧
    hypot
        (resolveBounceVelocity (MIN_BALL_SPEED shorter) (MAX_BALL_SPEED shorter)
          uE uB uA vx vy nx ny).1
        (resolveBounceVelocity (MIN_BALL_SPEED shorter) (MAX_BALL_SPEED shorter)
          uE uB uA vx vy nx ny).2 ≤ MAX_BALL_SPEED shorter := by
  have hminS : 0 ≤ MIN_BALL_SPEED shorter := by rw [MIN_BALL_SPEED]; nlinarith
  have hrange : MIN_BALL_SPEED shorter ≤ MAX_BALL_SPEED shorter := by
    rw [MIN_BALL_SPEED, MAX_BALL_SPEED]; nlinarith
  have hrefl : hypot (reflect vx vy nx ny).1 (reflect vx vy nx ny).2 =
      hypot vx vy := reflect_hypot vx vy nx ny hn
  have hf := finalEnergyFactor_lower (MAX_BALL_SPEED shorter) uE uB
    (reflect vx vy nx ny).1 (reflect vx vy nx ny).2 huE
  have hE : hypot
      (energyScale (MAX_BALL_SPEED shorter) uE uB (reflect vx vy nx ny).1
        (reflect vx vy nx ny).2).1
      (energyScale (MAX_BALL_SPEED shorter) uE uB (reflect vx vy nx ny).1
        (reflect vx vy nx ny).2).2 =
      hypot vx vy * finalEnergyFactor (MAX_BALL_SPEED shorter) uE uB
        (reflect vx vy nx ny).1 (reflect vx vy nx ny).2 := by
    rw [energyScale]
    rw [hypot_mul_right, hrefl, abs_of_nonneg (le_trans (by norm_num) hf)]
  have hEpos : 0 < hypot
      (energyScale (MAX_BALL_SPEED shorter) uE uB (reflect vx vy nx ny).1
        (reflect vx vy nx ny).2).1
      (energyScale (MAX_BALL_SPEED shorter) uE uB (reflect vx vy nx ny).1
        (reflect vx vy nx ny).2).2 := by
    rw [hE]
    exact mul_pos hv (lt_of_lt_of_le (by norm_num) hf)
  have hclamp := clampSpeed_mem (MIN_BALL_SPEED shorter) (MAX_BALL_SPEED shorter)
    _ _ hminS hrange hEpos
  rw [resolveBounceVelocity, perturbDirection_hypot]
  exact hclamp

/-- Witness for claim C1 at SHORTER = 5, incoming velocity (3, 4) of speed
5, radial normal (1, 0) and concrete random draws. -/
theorem claim1_post_bounce_speed_witness :
    MIN_BALL_SPEED 5 ≤
      hypot
        (resolveBounceVelocity (MIN_BALL_SPEED 5) (MAX_BALL_SPEED 5)
          0 1 0 3 4 1 0).1
        (resolveBounceVelocity (MIN_BALL_SPEED 5) (MAX_BALL_SPEED 5)
          0 1 0 3 4 1 0).2 ∧
    hypot
        (resolveBounceVelocity (MIN_BALL_SPEED 5) (MAX_BALL_SPEED 5)
          0 1 0 3 4 1 0).1
        (resolveBounceVelocity (MIN_BALL_SPEED 5) (MAX_BALL_SPEED 5)
          0 1 0 3 4 1 0).2 ≤ MAX_BALL_SPEED 5 :=
  claim1_post_bounce_speed 5 0 1 0 3 4 1 0 (by norm_num) (by norm_num)
    (by
      rw [hypot, show (3 : ℝ) ^ 2 + (4 : ℝ) ^ 2 = 25 by norm_num]
      exact Real.sqrt_pos.mpr (by norm_num))
    (le_refl 0)

/-! ## Collision angular geometry (update, the angular check of a ring)

The source computes rel = (atan2(dy,dx) - ring.angle + 2 pi) % (2 pi) with
the JavaScript remainder (sign of the dividend, i.e. a - b * trunc (a/b)),
the angular half-width of the ball
asin (min (0.99, ball.radius * 1.1 / (dist + 1e-6))), and the widened solid
arc [holeSize/2 + that, 2 pi - holeSize/2 - that]. -/

open Classical in
/-- Truncation toward zero, as used by the JavaScript % operator. -/
noncomputable def jsTrunc (x : ℝ) : ℤ := if 0 ≤ x then ⌊x⌋ else ⌈x⌉

/-- The JavaScript remainder a % b = a - b * trunc (a / b). -/
noncomputable def jsMod (a b : ℝ) : ℝ := a - b * (jsTrunc (a / b) : ℝ)

/-- rel = (atan2 (dy, dx) - ring.angle + 2 pi) % (2 pi). -/
noncomputable def relAngle (dx dy ringAngle : ℝ) : ℝ :=
  jsMod (atan2 dy dx - ringAngle + Real.pi * 2) (Real.pi * 2)

/-- The clamped argument handed to Math.asin:
min (0.99, ball.radius * safetyMargin / (dist + 1e-6)), safetyMargin = 1.1. -/
noncomputable def angularBallRadiusArg (ballRadius dist : ℝ) : ℝ :=
  min 0.99 (ballRadius * 1.1 / (dist + 1e-6))

/-- The angular half-width of the ball at the given distance. -/
noncomputable def angularBallRadius (ballRadius dist : ℝ) : ℝ :=
  Real.arcsin (angularBallRadiusArg ballRadius dist)

/-- Start of the widened solid arc: holeSize / 2 + angularBallRadius. -/
noncomputable def solidPartStartAngle (holeSize ballRadius dist : ℝ) : ℝ :=
  holeSize / 2 + angularBallRadius ballRadius dist

/-- End of the widened solid arc: 2 pi - holeSize / 2 - angularBallRadius. -/
noncomputable def solidPartEndAngle (holeSize ballRadius dist : ℝ) : ℝ :=
  Real.pi * 2 - holeSize / 2 - angularBallRadius ballRadius dist

/-- Claim C10: the angular-width computation is total: the denominator is
offset by 1e-6 and hence positive for every distance (including the exact
scene center, dist = 0), and the asin argument is clamped into (-1, 1), so
no division by zero and no asin domain error occurs. -/
theorem claim10_angular_width_total (ballRadius dist : ℝ)
    (hr : 0 ≤ ballRadius) (hd : 0 ≤ dist) :
    0 < dist + 1e-6 ∧
    -1 < angularBallRadiusArg ballRadius dist ∧
    angularBallRadiusArg ballRadius dist < 1 := by
  have he : (0 : ℝ) < 1e-6 := by norm_num
  have hden : 0 < dist + 1e-6 := by linarith
  have hq : 0 ≤ ballRadius * 1.1 / (dist + 1e-6) :=
    div_nonneg (by nlinarith) (le_of_lt hden)
  refine ⟨hden, ?_, ?_⟩
  · have : (0 : ℝ) ≤ angularBallRadiusArg ballRadius dist :=
      le_min (by norm_num) hq
    linarith
  · exact lt_of_le_of_lt (min_le_left _ _) (by norm_num)

/-- Witness for claim C10 at the exact scene center: ball radius 0 and
distance 0. -/
theorem claim10_angular_width_total_witness :
    0 < (0 : ℝ) + 1e-6 ∧
    -1 < angularBallRadiusArg 0 0 ∧
    angularBallRadiusArg 0 0 < 1 :=
  claim10_angular_width_total 0 0 (le_refl 0) (le_refl 0)

/-- Claim C8, counterexample to the claim as stated: the claim formula
(pi/3)/2 + asin (min (0.99, 1.1 r / d)) omits the 1e-6 denominator offset
the source applies; at r = 5, d = 100 the two values differ, since asin is
strictly monotone on [-1, 1] and 5 * 1.1 / (100 + 1e-6) < 1.1 * 5 / 100. -/
theorem claim8_counterexample :
    solidPartStartAngle (Real.pi / 3) 5 100 ≠
      Real.pi / 3 / 2 + Real.arcsin (min 0.99 (1.1 * 5 / 100)) := by
  rw [solidPartStartAngle, angularBallRadius, angularBallRadiusArg]
  rw [min_eq_right (by norm_num : (5 : ℝ) * 1.1 / (100 + 1e-6) ≤ 0.99)]
  rw [min_eq_right (by norm_num : (1.1 : ℝ) * 5 / 100 ≤ 0.99)]
  intro h
  have h2 : Real.arcsin (5 * 1.1 / (100 + 1e-6)) =
      Real.arcsin (1.1 * 5 / 100) := by linarith
  have h3 : Real.arcsin (5 * 1.1 / (100 + 1e-6)) <
      Real.arcsin (1.1 * 5 / 100) :=
    Real.strictMonoOn_arcsin (Set.mem_Icc.mpr (by constructor <;> norm_num))
      (Set.mem_Icc.mpr (by constructor <;> norm_num)) (by norm_num)
  exact absurd h2 (ne_of_lt h3)

/-- Claim C8 (amended): the widened solid-arc threshold computed by the
collision test equals (pi/3)/2 + asin (min (0.99, r * 1.1 / (d + 1e-6)))
— the source offsets the denominator by 1e-6 — and at r = 5, d = 100 the
clamp does not engage, the asin argument being exactly 5500000/100000001. -/
theorem claim8_widened_threshold :
    (∀ r d : ℝ, solidPartStartAngle (Real.pi / 3) r d =
      Real.pi / 3 / 2 + Real.arcsin (min 0.99 (r * 1.1 / (d + 1e-6)))) ∧
    solidPartStartAngle (Real.pi / 3) 5 100 =
      Real.pi / 3 / 2 + Real.arcsin (5 * 1.1 / (100 + 1e-6)) ∧
    (5 : ℝ) * 1.1 / (100 + 1e-6) = 5500000 / 100000001 := by
  refine ⟨fun r d => rfl, ?_, by norm_num⟩
  rw [solidPartStartAngle, angularBallRadius, angularBallRadiusArg,
    min_eq_right (by norm_num : (5 : ℝ) * 1.1 / (100 + 1e-6) ≤ 0.99)]

/-! ## Scene data model and the per-ring collision test

The ring objects of the source (fields radius, width, holeSize, angle,
speed, color, visible) are modelled as SceneRing (the bare name Ring is
taken by the algebra hierarchy); colors are modelled by their numeric hue.
The ball carries position, radius and velocity; its appearance-policy color
fields are render-only and are not modelled. -/

structure SceneRing where
  radius : ℝ
  width : ℝ
  holeSize : ℝ
  angle : ℝ
  speed : ℝ
  color : ℝ
  visible : Bool

structure Ball where
  x : ℝ
  y : ℝ
  radius : ℝ
  vx : ℝ
  vy : ℝ

/-- The three Math.random() draws one bounce consumes. -/
structure BounceRand where
  uEnergy : ℝ
  uBoost : ℝ
  uAngle : ℝ

/-- dist >= ballCollisionZoneInner and dist <= ballCollisionZoneOuter,
with the band [radius - width/2 - ball.radius,
radius + width/2 + ball.radius]. -/
def inCollisionZone (cx cy : ℝ) (b : Ball) (r : SceneRing) : Prop :=
  r.radius - r.width / 2 - b.radius ≤ hypot (b.x - cx) (b.y - cy) ∧
  hypot (b.x - cx) (b.y - cy) ≤ r.radius + r.width / 2 + b.radius

/-- The tunneling guard: the path this sub-step crossed into the band,
from inside the inner edge or from outside the outer edge. -/
def enteredCollisionZone (cx cy prevX prevY : ℝ) (b : Ball) (r : SceneRing) :
    Prop :=
  (hypot (prevX - cx) (prevY - cy) < r.radius - r.width / 2 - b.radius ∧
    r.radius - r.width / 2 - b.radius ≤ hypot (b.x - cx) (b.y - cy)) ∨
  (r.radius + r.width / 2 + b.radius < hypot (prevX - cx) (prevY - cy) ∧
    hypot (b.x - cx) (b.y - cy) ≤ r.radius + r.width / 2 + b.radius)

/-- rel <= solidPartStartAngle or rel >= solidPartEndAngle. -/
def isInHole (cx cy : ℝ) (b : Ball) (r : SceneRing) : Prop :=
  relAngle (b.x - cx) (b.y - cy) r.angle ≤
      solidPartStartAngle r.holeSize b.radius (hypot (b.x - cx) (b.y - cy)) ∨
  solidPartEndAngle r.holeSize b.radius (hypot (b.x - cx) (b.y - cy)) ≤
      relAngle (b.x - cx) (b.y - cy) r.angle

open Classical in
/-- The bounce resolution of the source: new velocity through
resolveBounceVelocity with the radial normal (dx/dist, dy/dist), then the
radial push out of the band by the penetration depth plus
ball.radius * 0.6, inward or outward according to the edge that was hit. -/
noncomputable def resolveBounce (minS maxS cx cy : ℝ) (rnd : BounceRand)
    (b : Ball) (r : SceneRing) : Ball :=
  let dx := b.x - cx
  let dy := b.y - cy
  let dist := hypot dx dy
  let nx := dx / dist
  let ny := dy / dist
  let v := resolveBounceVelocity minS maxS rnd.uEnergy rnd.uBoost rnd.uAngle
    b.vx b.vy nx ny
  let pen := if dist < r.radius then
      (r.radius - r.width / 2) - (dist - b.radius)
    else (dist + b.radius) - (r.radius + r.width / 2)
  let pushFactor := pen + b.radius * 0.6
  let pushDir : ℝ := if dist < r.radius then -1 else 1
  { b with
    vx := v.1
    vy := v.2
    x := b.x + nx * pushFactor * pushDir
    y := b.y + ny * pushFactor * pushDir }

/-- The outcome of testing one ring. -/
inductive HitResult where
  | bounce (newBall : Ball)
  | passThrough

open Classical in
/-- The per-ring body of the collision loop: range test (current position
in the band, or entered it this sub-step), then the angular test; a hit in
the widened solid arc bounces, a hit in the gap passes through only if the
band was entered this sub-step. -/
noncomputable def checkRing (minS maxS cx cy prevX prevY : ℝ) (b : Ball)
    (r : SceneRing) (rnd : BounceRand) : Option HitResult :=
  if inCollisionZone cx cy b r ∨ enteredCollisionZone cx cy prevX prevY b r then
    if ¬ isInHole cx cy b r then
      some (HitResult.bounce (resolveBounce minS maxS cx cy rnd b r))
    else if enteredCollisionZone cx cy prevX prevY b r then
      some HitResult.passThrough
    else none
  else none

/-- A ring interaction of one sub-step: a bounce, or a gap pass-through
(the latter recording the invocation of the destruction-effect policy at
the ball position with the ring color). -/
inductive SubEvent where
  | bounced
  | passed (x y color : ℝ)

/-- The ring loop of one sub-step: iterate the ring sequence in order,
skip invisible rings, stop at the first ring whose test hits (a bounce
keeps the ring and replaces the ball, a pass-through hides the ring and
spawns the destruction effect); at most one interaction is resolved. -/
noncomputable def scanRings (minS maxS cx cy prevX prevY : ℝ) (b : Ball)
    (rnd : BounceRand) :
    List SceneRing → List SceneRing × Ball × List SubEvent
  | [] => ([], b, [])
  | r :: rs =>
    if r.visible then
      match checkRing minS maxS cx cy prevX prevY b r rnd with
      | some (HitResult.bounce b2) => (r :: rs, b2, [SubEvent.bounced])
      | some HitResult.passThrough =>
          ({ r with visible := false } :: rs, b,
            [SubEvent.passed b.x b.y r.color])
      | none =>
          let rest := scanRings minS maxS cx cy prevX prevY b rnd rs
          (r :: rest.1, rest.2.1, rest.2.2)
    else
      let rest := scanRings minS maxS cx cy prevX prevY b rnd rs
      (r :: rest.1, rest.2.1, rest.2.2)

theorem sq_hypot (x y : ℝ) : hypot x y ^ 2 = x ^ 2 + y ^ 2 := by
  rw [hypot]
  exact Real.sq_sqrt (by positivity)

theorem hypot_x_zero (x : ℝ) : hypot x 0 = |x| := by
  rw [hypot, show x ^ 2 + (0 : ℝ) ^ 2 = x ^ 2 by ring, Real.sqrt_sq_eq_abs]

/-- The radial normal (dx/dist, dy/dist) is a unit vector whenever
dist > 0. -/
theorem radial_normal_unit (x y : ℝ) (h : 0 < hypot x y) :
    (x / hypot x y) ^ 2 + (y / hypot x y) ^ 2 = 1 := by
  have h2 := sq_hypot x y
  field_simp
  linarith

/-- Reflection about a unit normal negates the normal velocity
component. -/
theorem reflect_dot (vx vy nx ny : ℝ) (hn : nx ^ 2 + ny ^ 2 = 1) :
    (reflect vx vy nx ny).1 * nx + (reflect vx vy nx ny).2 * ny =
      -(vx * nx + vy * ny) := by
  rw [reflect]
  dsimp only
  linear_combination (-2 * (vx * nx + vy * ny)) * hn

theorem atan2_zero_of_pos (x : ℝ) (hx : 0 < x) : atan2 0 x = 0 := by
  rw [atan2]
  rw [show (⟨x, 0⟩ : ℂ) = (x : ℂ) from by apply Complex.ext <;> simp]
  exact Complex.arg_ofReal_of_nonneg (le_of_lt hx)

theorem atan2_zero_of_neg (x : ℝ) (hx : x < 0) : atan2 0 x = Real.pi := by
  rw [atan2]
  rw [show (⟨x, 0⟩ : ℂ) = (x : ℂ) from by apply Complex.ext <;> simp]
  exact Complex.arg_ofReal_of_neg hx

theorem jsMod_self (b : ℝ) (hb : b ≠ 0) : jsMod b b = 0 := by
  rw [jsMod, div_self hb, jsTrunc, if_pos (by norm_num : (0 : ℝ) ≤ 1)]
  rw [Int.floor_one]
  norm_num

theorem jsMod_pi_add_two_pi :
    jsMod (Real.pi + Real.pi * 2) (Real.pi * 2) = Real.pi := by
  have hb : Real.pi * 2 ≠ 0 := by positivity
  have h32 : (Real.pi + Real.pi * 2) / (Real.pi * 2) = 3 / 2 := by
    field_simp
    ring
  rw [jsMod, h32, jsTrunc, if_pos (by norm_num : (0 : ℝ) ≤ 3 / 2)]
  rw [show ⌊(3 / 2 : ℝ)⌋ = 1 by norm_num]
  push_cast
  ring

/-- A ball on the positive x axis relative to a ring of rotation angle 0
has relative angle 0 (the gap center). -/
theorem relAngle_pos_x (x : ℝ) (hx : 0 < x) : relAngle x 0 0 = 0 := by
  rw [relAngle, atan2_zero_of_pos x hx,
    show (0 : ℝ) - 0 + Real.pi * 2 = Real.pi * 2 by ring]
  exact jsMod_self _ (by positivity)

/-- A ball on the negative x axis relative to a ring of rotation angle 0
has relative angle pi (exactly opposite the gap). -/
theorem relAngle_neg_x (x : ℝ) (hx : x < 0) : relAngle x 0 0 = Real.pi := by
  rw [relAngle, atan2_zero_of_neg x hx,
    show Real.pi - 0 + Real.pi * 2 = Real.pi + Real.pi * 2 by ring]
  exact jsMod_pi_add_two_pi

theorem angularBallRadius_nonneg (ballRadius dist : ℝ) (hr : 0 ≤ ballRadius)
    (hd : 0 ≤ dist) : 0 ≤ angularBallRadius ballRadius dist := by
  rw [angularBallRadius]
  refine Real.arcsin_nonneg.mpr (le_min (by norm_num) ?_)
  have he : (0 : ℝ) < 1e-6 := by norm_num
  exact div_nonneg (by nlinarith) (by nlinarith)

theorem angularBallRadius_le_pi_div_two (ballRadius dist : ℝ) :
    angularBallRadius ballRadius dist ≤ Real.pi / 2 :=
  Real.arcsin_le_pi_div_two _

/-- A ball sitting exactly on the gap center (relative angle 0) always
passes the in-hole test: the widened solid arc starts at a nonnegative
angle. -/
theorem isInHole_of_rel_zero (cx cy : ℝ) (b : Ball) (r : SceneRing)
    (hhole0 : 0 ≤ r.holeSize) (hbr : 0 ≤ b.radius)
    (hrel : relAngle (b.x - cx) (b.y - cy) r.angle = 0) :
    isInHole cx cy b r := by
  rw [isInHole, hrel]
  left
  rw [solidPartStartAngle]
  have h1 := angularBallRadius_nonneg b.radius (hypot (b.x - cx) (b.y - cy))
    hbr (hypot_nonneg _ _)
  linarith

/-- In the gap, having just entered the band: the test passes through. -/
theorem checkRing_pass (minS maxS cx cy prevX prevY : ℝ) (b : Ball)
    (r : SceneRing) (rnd : BounceRand)
    (hent : enteredCollisionZone cx cy prevX prevY b r)
    (hin : isInHole cx cy b r) :
    checkRing minS maxS cx cy prevX prevY b r rnd =
      some HitResult.passThrough := by
  rw [checkRing, if_pos (Or.inr hent), if_neg (not_not_intro hin),
    if_pos hent]

/-- In the gap but already inside the band (no entry this sub-step): the
test resolves nothing at all. -/
theorem checkRing_none (minS maxS cx cy prevX prevY : ℝ) (b : Ball)
    (r : SceneRing) (rnd : BounceRand)
    (hzone : inCollisionZone cx cy b r)
    (hnent : ¬ enteredCollisionZone cx cy prevX prevY b r)
    (hin : isInHole cx cy b r) :
    checkRing minS maxS cx cy prevX prevY b r rnd = none := by
  rw [checkRing, if_pos (Or.inl hzone), if_neg (not_not_intro hin),
    if_neg hnent]

/-- In the band at relative angle pi (opposite the gap), any ring with the
program hole width pi/3 bounces: pi lies strictly inside the widened solid
arc because the angular ball radius is at most pi/2 < 5 pi / 6. -/
theorem checkRing_bounce_at_rel_pi (minS maxS cx cy prevX prevY : ℝ)
    (b : Ball) (r : SceneRing) (rnd : BounceRand)
    (hzone : inCollisionZone cx cy b r)
    (hhole : r.holeSize = Real.pi / 3)
    (hrel : relAngle (b.x - cx) (b.y - cy) r.angle = Real.pi) :
    checkRing minS maxS cx cy prevX prevY b r rnd =
      some (HitResult.bounce (resolveBounce minS maxS cx cy rnd b r)) := by
  have haBR := angularBallRadius_le_pi_div_two b.radius
    (hypot (b.x - cx) (b.y - cy))
  have hnot : ¬ isInHole cx cy b r := by
    rw [isInHole, hrel, hhole]
    push_neg
    constructor
    · rw [solidPartStartAngle]
      linarith [Real.pi_pos]
    · rw [solidPartEndAngle]
      linarith [Real.pi_pos]
  rw [checkRing, if_pos (Or.inl hzone), if_pos hnot]

theorem scanRings_cons_pass (minS maxS cx cy prevX prevY : ℝ) (b : Ball)
    (rnd : BounceRand) (r : SceneRing) (rs : List SceneRing)
    (hvis : r.visible = true)
    (hcheck : checkRing minS maxS cx cy prevX prevY b r rnd =
      some HitResult.passThrough) :
    scanRings minS maxS cx cy prevX prevY b rnd (r :: rs) =
      ({ r with visible := false } :: rs, b,
        [SubEvent.passed b.x b.y r.color]) := by
  simp [scanRings, hvis, hcheck]

theorem scanRings_cons_bounce (minS maxS cx cy prevX prevY : ℝ) (b : Ball)
    (rnd : BounceRand) (r : SceneRing) (rs : List SceneRing)
    (hvis : r.visible = true) (b2 : Ball)
    (hcheck : checkRing minS maxS cx cy prevX prevY b r rnd =
      some (HitResult.bounce b2)) :
    scanRings minS maxS cx cy prevX prevY b rnd (r :: rs) =
      (r :: rs, b2, [SubEvent.bounced]) := by
  simp [scanRings, hvis, hcheck]

theorem scanRings_cons_none (minS maxS cx cy prevX prevY : ℝ) (b : Ball)
    (rnd : BounceRand) (r : SceneRing) (rs : List SceneRing)
    (hvis : r.visible = true)
    (hcheck : checkRing minS maxS cx cy prevX prevY b r rnd = none) :
    scanRings minS maxS cx cy prevX prevY b rnd (r :: rs) =
      (r :: (scanRings minS maxS cx cy prevX prevY b rnd rs).1,
        (scanRings minS maxS cx cy prevX prevY b rnd rs).2.1,
        (scanRings minS maxS cx cy prevX prevY b rnd rs).2.2) := by
  simp [scanRings, hvis, hcheck]

/-- Claim C3, counterexample to the claim as stated: a ball exactly on the
gap center (relative angle 0) at a distance within the collision band, but
whose previous position was also inside the band (no entry this sub-step):
the scan leaves the ring visible and spawns no destruction effect, so no
pass-through is produced although every hypothesis of the claim holds.
Ring radius 100, width 2, hole pi/3, angle 0; ball at (100, 0), radius 5;
previous position (100, 0); center (0, 0). -/
theorem claim3_counterexample :
    inCollisionZone 0 0 ⟨100, 0, 5, 0, 0⟩ ⟨100, 2, Real.pi / 3, 0, 0, 7, true⟩ ∧
    relAngle ((100 : ℝ) - 0) ((0 : ℝ) - 0) 0 = 0 ∧
    scanRings 1 4 0 0 100 0 ⟨100, 0, 5, 0, 0⟩ ⟨0, 0, 0⟩
        [⟨100, 2, Real.pi / 3, 0, 0, 7, true⟩] =
      ([⟨100, 2, Real.pi / 3, 0, 0, 7, true⟩], ⟨100, 0, 5, 0, 0⟩, []) := by
  have hzone : inCollisionZone 0 0 ⟨100, 0, 5, 0, 0⟩
      ⟨100, 2, Real.pi / 3, 0, 0, 7, true⟩ := by
    rw [inCollisionZone]
    norm_num [hypot_x_zero]
  have hrel : relAngle ((100 : ℝ) - 0) ((0 : ℝ) - 0) 0 = 0 := by
    rw [show (100 : ℝ) - 0 = 100 by norm_num, show (0 : ℝ) - 0 = 0 by norm_num]
    exact relAngle_pos_x 100 (by norm_num)
  have hnent : ¬ enteredCollisionZone 0 0 100 0 ⟨100, 0, 5, 0, 0⟩
      ⟨100, 2, Real.pi / 3, 0, 0, 7, true⟩ := by
    rw [enteredCollisionZone]
    norm_num [hypot_x_zero]
  have hin : isInHole 0 0 ⟨100, 0, 5, 0, 0⟩
      ⟨100, 2, Real.pi / 3, 0, 0, 7, true⟩ :=
    isInHole_of_rel_zero 0 0 _ _ (by positivity) (by norm_num) hrel
  have hnone := checkRing_none 1 4 0 0 100 0 ⟨100, 0, 5, 0, 0⟩
    ⟨100, 2, Real.pi / 3, 0, 0, 7, true⟩ ⟨0, 0, 0⟩ hzone hnent hin
  refine ⟨hzone, hrel, ?_⟩
  rw [scanRings_cons_none 1 4 0 0 100 0 ⟨100, 0, 5, 0, 0⟩ ⟨0, 0, 0⟩ _ []
    rfl hnone]
  rw [scanRings]

/-- Claim C3 (amended): for every visible ring and every ball exactly on
the gap center (relative angle 0) at a distance within the collision band
which moreover just crossed into the band this sub-step, the scan produces
a pass-through: the ring becomes invisible, the destruction effect is
spawned at the ball position with the ring color, and no bounce occurs. -/
theorem claim3_gap_center_pass (minS maxS cx cy prevX prevY : ℝ) (b : Ball)
    (r : SceneRing) (rnd : BounceRand) (rs : List SceneRing)
    (hvis : r.visible = true) (hhole0 : 0 ≤ r.holeSize) (hbr : 0 ≤ b.radius)
    (hzone : inCollisionZone cx cy b r)
    (hent : enteredCollisionZone cx cy prevX prevY b r)
    (hrel : relAngle (b.x - cx) (b.y - cy) r.angle = 0) :
    scanRings minS maxS cx cy prevX prevY b rnd (r :: rs) =
      ({ r with visible := false } :: rs, b,
        [SubEvent.passed b.x b.y r.color]) :=
  scanRings_cons_pass minS maxS cx cy prevX prevY b rnd r rs hvis
    (checkRing_pass minS maxS cx cy prevX prevY b r rnd hent
      (isInHole_of_rel_zero cx cy b r hhole0 hbr hrel))

/-- Witness for claim C3: ball at (100, 0) of radius 5, previous position
(108, 0) outside the band of the ring of radius 100, width 2, hole pi/3,
rotation 0: the ring is consumed and the effect spawns at the ball. -/
theorem claim3_gap_center_pass_witness :
    scanRings 1 4 0 0 108 0 ⟨100, 0, 5, 0, 0⟩ ⟨0, 0, 0⟩
        [⟨100, 2, Real.pi / 3, 0, 0, 7, true⟩] =
      ({ (⟨100, 2, Real.pi / 3, 0, 0, 7, true⟩ : SceneRing) with
          visible := false } :: [], ⟨100, 0, 5, 0, 0⟩,
        [SubEvent.passed 100 0 7]) :=
  claim3_gap_center_pass 1 4 0 0 108 0 ⟨100, 0, 5, 0, 0⟩
    ⟨100, 2, Real.pi / 3, 0, 0, 7, true⟩ ⟨0, 0, 0⟩ [] rfl
    (by positivity) (by norm_num)
    (by rw [inCollisionZone]; norm_num [hypot_x_zero])
    (by
      rw [enteredCollisionZone]
      right
      norm_num [hypot_x_zero])
    (by
      rw [show (100 : ℝ) - 0 = 100 by norm_num,
        show (0 : ℝ) - 0 = 0 by norm_num]
      exact relAngle_pos_x 100 (by norm_num))

/-- Claim C4: for every visible ring (hole width pi/3 as every ring of the
program) and every ball exactly opposite the gap (relative angle pi) at a
distance within the collision band, the collision test produces a bounce —
the scan keeps the ring, replaces the ball by the resolved bounce and
reports a bounce event, never a pass-through — and the reflection step
negates the velocity component along the radial normal, for every incoming
velocity and all random draws. -/
theorem claim4_opposite_gap_bounce (minS maxS cx cy prevX prevY : ℝ)
    (b : Ball) (r : SceneRing) (rnd : BounceRand) (rs : List SceneRing)
    (hvis : r.visible = true) (hhole : r.holeSize = Real.pi / 3)
    (hzone : inCollisionZone cx cy b r)
    (hrel : relAngle (b.x - cx) (b.y - cy) r.angle = Real.pi)
    (hdist : 0 < hypot (b.x - cx) (b.y - cy)) :
    scanRings minS maxS cx cy prevX prevY b rnd (r :: rs) =
      (r :: rs, resolveBounce minS maxS cx cy rnd b r, [SubEvent.bounced]) ∧
    (reflect b.vx b.vy ((b.x - cx) / hypot (b.x - cx) (b.y - cy))
          ((b.y - cy) / hypot (b.x - cx) (b.y - cy))).1 *
        ((b.x - cx) / hypot (b.x - cx) (b.y - cy)) +
      (reflect b.vx b.vy ((b.x - cx) / hypot (b.x - cx) (b.y - cy))
          ((b.y - cy) / hypot (b.x - cx) (b.y - cy))).2 *
        ((b.y - cy) / hypot (b.x - cx) (b.y - cy)) =
      -(b.vx * ((b.x - cx) / hypot (b.x - cx) (b.y - cy)) +
        b.vy * ((b.y - cy) / hypot (b.x - cx) (b.y - cy))) := by
  constructor
  · exact scanRings_cons_bounce minS maxS cx cy prevX prevY b rnd r rs hvis _
      (checkRing_bounce_at_rel_pi minS maxS cx cy prevX prevY b r rnd hzone
        hhole hrel)
  · exact reflect_dot b.vx b.vy _ _
      (radial_normal_unit (b.x - cx) (b.y - cy) hdist)

/-- Witness for claim C4: ball at (-100, 0) of radius 5 with velocity
(3, 4), ring of radius 100, width 2, hole pi/3, rotation 0, center (0,0). -/
theorem claim4_opposite_gap_bounce_witness :
    scanRings 1 4 0 0 0 0 ⟨-100, 0, 5, 3, 4⟩ ⟨0, 0, 0⟩
        [⟨100, 2, Real.pi / 3, 0, 0, 7, true⟩] =
      ([⟨100, 2, Real.pi / 3, 0, 0, 7, true⟩],
        resolveBounce 1 4 0 0 ⟨0, 0, 0⟩ ⟨-100, 0, 5, 3, 4⟩
          ⟨100, 2, Real.pi / 3, 0, 0, 7, true⟩, [SubEvent.bounced]) ∧
    (reflect 3 4 (((-100 : ℝ) - 0) / hypot ((-100 : ℝ) - 0) ((0 : ℝ) - 0))
          (((0 : ℝ) - 0) / hypot ((-100 : ℝ) - 0) ((0 : ℝ) - 0))).1 *
        (((-100 : ℝ) - 0) / hypot ((-100 : ℝ) - 0) ((0 : ℝ) - 0)) +
      (reflect 3 4 (((-100 : ℝ) - 0) / hypot ((-100 : ℝ) - 0) ((0 : ℝ) - 0))
          (((0 : ℝ) - 0) / hypot ((-100 : ℝ) - 0) ((0 : ℝ) - 0))).2 *
        (((0 : ℝ) - 0) / hypot ((-100 : ℝ) - 0) ((0 : ℝ) - 0)) =
      -(3 * (((-100 : ℝ) - 0) / hypot ((-100 : ℝ) - 0) ((0 : ℝ) - 0)) +
        4 * (((0 : ℝ) - 0) / hypot ((-100 : ℝ) - 0) ((0 : ℝ) - 0))) :=
  claim4_opposite_gap_bounce 1 4 0 0 0 0 ⟨-100, 0, 5, 3, 4⟩
    ⟨100, 2, Real.pi / 3, 0, 0, 7, true⟩ ⟨0, 0, 0⟩ [] rfl rfl
    (by rw [inCollisionZone]; norm_num [hypot_x_zero])
    (by
      rw [show (-100 : ℝ) - 0 = -100 by norm_num,
        show (0 : ℝ) - 0 = 0 by norm_num]
      exact relAngle_neg_x (-100) (by norm_num))
    (by
      rw [show (-100 : ℝ) - 0 = -100 by norm_num,
        show (0 : ℝ) - 0 = 0 by norm_num, hypot_x_zero]
      norm_num)

/-! ## Sub-stepped ball translation (update, the SUB_STEPS loop)

The frame splits dt into SUB_STEPS = 2 equal sub-steps; each sub-step
first moves the ball linearly by velocity * subDt, then scans the rings;
after a sub-step in which a bounce or pass-through was resolved the
remaining sub-steps of the frame are skipped (the source breaks out of the
step loop). -/

def SUB_STEPS : Nat := 2

structure SimState where
  rings : List SceneRing
  ball : Ball

/-- One sub-step: save the previous position, move the ball linearly by
velocity * subDt, then run the ring loop. -/
noncomputable def subStep (minS maxS cx cy subDt : ℝ) (rnd : BounceRand)
    (s : SimState) : SimState × List SubEvent :=
  let moved : Ball := { s.ball with
    x := s.ball.x + s.ball.vx * subDt
    y := s.ball.y + s.ball.vy * subDt }
  let res := scanRings minS maxS cx cy s.ball.x s.ball.y moved rnd s.rings
  (⟨res.1, res.2.1⟩, res.2.2)

/-- The sub-step loop with early exit: run up to n sub-steps starting at
index step, stopping after the first sub-step that resolved an
interaction; returns the final state and the number of sub-steps
executed. -/
noncomputable def runSubSteps (minS maxS cx cy subDt : ℝ)
    (rnd : Nat → BounceRand) : Nat → Nat → SimState → SimState × Nat
  | 0, _, s => (s, 0)
  | n + 1, step, s =>
    match subStep minS maxS cx cy subDt (rnd step) s with
    | (s2, []) =>
      let rest := runSubSteps minS maxS cx cy subDt rnd n (step + 1) s2
      (rest.1, rest.2 + 1)
    | (s2, _ :: _) => (s2, 1)

/-- The whole ball-translation phase of one frame: SUB_STEPS sub-steps of
dt / SUB_STEPS each. -/
noncomputable def ballUpdatePhase (minS maxS cx cy dt : ℝ)
    (rnd : Nat → BounceRand) (s : SimState) : SimState × Nat :=
  runSubSteps minS maxS cx cy (dt / (SUB_STEPS : ℝ)) rnd SUB_STEPS 0 s

/-- The ring loop resolves at most one interaction per sub-step. -/
theorem scanRings_events_length_le (minS maxS cx cy prevX prevY : ℝ)
    (b : Ball) (rnd : BounceRand) (rs : List SceneRing) :
    ((scanRings minS maxS cx cy prevX prevY b rnd rs).2.2).length ≤ 1 := by
  induction rs with
  | nil => simp [scanRings]
  | cons r rs ih =>
    rw [scanRings]
    by_cases hv : r.visible
    · simp only [hv, if_true]
      cases hcheck : checkRing minS maxS cx cy prevX prevY b r rnd with
      | none => simpa using ih
      | some hit => cases hit <;> simp
    · simp only [hv]
      simpa using ih

/-- If the ring loop resolved nothing, the ball is exactly the moved
ball. -/
theorem scanRings_ball_of_no_event (minS maxS cx cy prevX prevY : ℝ)
    (b : Ball) (rnd : BounceRand) (rs : List SceneRing)
    (h : (scanRings minS maxS cx cy prevX prevY b rnd rs).2.2 = []) :
    (scanRings minS maxS cx cy prevX prevY b rnd rs).2.1 = b := by
  induction rs with
  | nil => simp [scanRings]
  | cons r rs ih =>
    rw [scanRings] at h ⊢
    by_cases hv : r.visible
    · simp only [hv, if_true] at h ⊢
      cases hcheck : checkRing minS maxS cx cy prevX prevY b r rnd with
      | none =>
        rw [hcheck] at h
        dsimp only at h ⊢
        exact ih h
      | some hit =>
        rw [hcheck] at h
        cases hit <;> simp at h
    · simp only [hv, if_false] at h ⊢
      exact ih (by simpa using h)

/-- The early-exit loop never runs more sub-steps than allotted. -/
theorem runSubSteps_count_le (minS maxS cx cy subDt : ℝ)
    (rnd : Nat → BounceRand) (n step : Nat) (s : SimState) :
    (runSubSteps minS maxS cx cy subDt rnd n step s).2 ≤ n := by
  induction n generalizing step s with
  | zero => rw [runSubSteps]
  | succ m ih =>
    rw [runSubSteps]
    rcases hsub : subStep minS maxS cx cy subDt (rnd step) s with ⟨s2, evs⟩
    cases evs with
    | nil =>
      simpa using Nat.succ_le_succ (ih (step + 1) s2)
    | cons e rest => simp

/-- A one-sub-step loop always reports exactly one executed sub-step. -/
theorem runSubSteps_one (minS maxS cx cy subDt : ℝ) (rnd : Nat → BounceRand)
    (step : Nat) (s : SimState) :
    (runSubSteps minS maxS cx cy subDt rnd 1 step s).2 = 1 := by
  rw [runSubSteps]
  rcases hsub : subStep minS maxS cx cy subDt (rnd step) s with ⟨s2, evs⟩
  cases evs with
  | nil =>
    dsimp only
    rw [runSubSteps]
  | cons e rest => rfl

/-- Unfolding of the early-exit loop when the first sub-step resolves
nothing. -/
theorem runSubSteps_succ_of_empty (minS maxS cx cy subDt : ℝ)
    (rnd : Nat → BounceRand) (n step : Nat) (s : SimState)
    (h : (subStep minS maxS cx cy subDt (rnd step) s).2 = []) :
    (runSubSteps minS maxS cx cy subDt rnd (n + 1) step s).2 =
      (runSubSteps minS maxS cx cy subDt rnd n (step + 1)
        (subStep minS maxS cx cy subDt (rnd step) s).1).2 + 1 := by
  rw [runSubSteps]
  rcases hsub : subStep minS maxS cx cy subDt (rnd step) s with ⟨s2, evs⟩
  rw [hsub] at h
  dsimp only at h
  subst h
  dsimp only

/-- Claim C7, counterexample to the claim as stated: a frame whose first
sub-step resolves a bounce (ball resting at (-100, 0) opposite the gap of
the visible ring of radius 100) executes only 1 of the 2 sub-steps — the
source breaks out of the sub-step loop — so the ball is not moved in each
of the 2 sub-steps. -/
theorem claim7_counterexample :
    SUB_STEPS = 2 ∧
    (ballUpdatePhase 1 4 0 0 1 (fun _ => ⟨0, 0, 0⟩)
      ⟨[⟨100, 2, Real.pi / 3, 0, 0, 7, true⟩], ⟨-100, 0, 5, 0, 0⟩⟩).2 = 1 := by
  refine ⟨rfl, ?_⟩
  have hrel : relAngle ((-100 : ℝ) - 0) ((0 : ℝ) - 0) 0 = Real.pi := by
    rw [show (-100 : ℝ) - 0 = -100 by norm_num,
      show (0 : ℝ) - 0 = 0 by norm_num]
    exact relAngle_neg_x (-100) (by norm_num)
  have hzone : inCollisionZone 0 0 ⟨-100, 0, 5, 0, 0⟩
      ⟨100, 2, Real.pi / 3, 0, 0, 7, true⟩ := by
    rw [inCollisionZone]
    norm_num [hypot_x_zero]
  have hcheck := checkRing_bounce_at_rel_pi 1 4 0 0 (-100) 0
    ⟨-100, 0, 5, 0, 0⟩ ⟨100, 2, Real.pi / 3, 0, 0, 7, true⟩ ⟨0, 0, 0⟩
    hzone rfl hrel
  have hscan := scanRings_cons_bounce 1 4 0 0 (-100) 0 ⟨-100, 0, 5, 0, 0⟩
    ⟨0, 0, 0⟩ _ [] rfl _ hcheck
  have hsub : subStep 1 4 0 0 ((1 : ℝ) / (SUB_STEPS : ℝ)) ⟨0, 0, 0⟩
      ⟨[⟨100, 2, Real.pi / 3, 0, 0, 7, true⟩], ⟨-100, 0, 5, 0, 0⟩⟩ =
      (⟨[⟨100, 2, Real.pi / 3, 0, 0, 7, true⟩],
        resolveBounce 1 4 0 0 ⟨0, 0, 0⟩ ⟨-100, 0, 5, 0, 0⟩
          ⟨100, 2, Real.pi / 3, 0, 0, 7, true⟩⟩, [SubEvent.bounced]) := by
    rw [subStep]
    dsimp only
    rw [show (⟨(-100 : ℝ) + 0 * ((1 : ℝ) / (SUB_STEPS : ℝ)),
        (0 : ℝ) + 0 * ((1 : ℝ) / (SUB_STEPS : ℝ)), (5 : ℝ),
        (0 : ℝ), (0 : ℝ)⟩ : Ball) = ⟨-100, 0, 5, 0, 0⟩ from by norm_num]
    rw [hscan]
  show (runSubSteps 1 4 0 0 ((1 : ℝ) / (SUB_STEPS : ℝ)) (fun _ => ⟨0, 0, 0⟩)
      (1 + 1) 0
      ⟨[⟨100, 2, Real.pi / 3, 0, 0, 7, true⟩], ⟨-100, 0, 5, 0, 0⟩⟩).2 = 1
  rw [runSubSteps]
  dsimp only
  rw [hsub]

/-- Claim C7 (amended): dt is split into SUB_STEPS = 2 equal sub-steps
summing to dt; each sub-step that runs first moves the ball linearly by
velocity * subDt and then tests collisions, resolving at most one ring
interaction; at most 2 sub-steps execute, and both execute whenever the
first resolves no interaction (after an interaction the frame skips the
remaining sub-step). -/
theorem claim7_substep_structure (minS maxS cx cy dt : ℝ)
    (rnd : Nat → BounceRand) (s : SimState) :
    SUB_STEPS = 2 ∧
    dt / (SUB_STEPS : ℝ) + dt / (SUB_STEPS : ℝ) = dt ∧
    (∀ (r : BounceRand) (t : SimState),
      ((subStep minS maxS cx cy (dt / (SUB_STEPS : ℝ)) r t).2).length ≤ 1) ∧
    (∀ (r : BounceRand) (t : SimState),
      (subStep minS maxS cx cy (dt / (SUB_STEPS : ℝ)) r t).2 = [] →
        (subStep minS maxS cx cy (dt / (SUB_STEPS : ℝ)) r t).1.ball.x =
          t.ball.x + t.ball.vx * (dt / (SUB_STEPS : ℝ)) ∧
        (subStep minS maxS cx cy (dt / (SUB_STEPS : ℝ)) r t).1.ball.y =
          t.ball.y + t.ball.vy * (dt / (SUB_STEPS : ℝ))) ∧
    (ballUpdatePhase minS maxS cx cy dt rnd s).2 ≤ SUB_STEPS ∧
    ((subStep minS maxS cx cy (dt / (SUB_STEPS : ℝ)) (rnd 0) s).2 = [] →
      (ballUpdatePhase minS maxS cx cy dt rnd s).2 = SUB_STEPS) := by
  refine ⟨rfl, ?_, ?_, ?_, ?_, ?_⟩
  · rw [SUB_STEPS]
    push_cast
    ring
  · intro r t
    exact scanRings_events_length_le _ _ _ _ _ _ _ _ _
  · intro r t h
    have hb := scanRings_ball_of_no_event minS maxS cx cy t.ball.x t.ball.y
      { t.ball with
        x := t.ball.x + t.ball.vx * (dt / (SUB_STEPS : ℝ))
        y := t.ball.y + t.ball.vy * (dt / (SUB_STEPS : ℝ)) } r t.rings h
    exact ⟨congrArg Ball.x hb, congrArg Ball.y hb⟩
  · exact runSubSteps_count_le _ _ _ _ _ _ SUB_STEPS 0 s
  · intro h
    have h2 := runSubSteps_succ_of_empty minS maxS cx cy
      (dt / (SUB_STEPS : ℝ)) rnd 1 0 s h
    show (runSubSteps minS maxS cx cy (dt / (SUB_STEPS : ℝ)) rnd (1 + 1) 0
      s).2 = SUB_STEPS
    rw [h2, runSubSteps_one, SUB_STEPS]

/-- Witness for claim C7 at a concrete frame: an empty ring list, ball at
the center with velocity 0, dt = 1. -/
theorem claim7_substep_structure_witness :
    (ballUpdatePhase 1 4 0 0 1 (fun _ => ⟨0, 0, 0⟩)
      ⟨[], ⟨0, 0, 1, 0, 0⟩⟩).2 ≤ SUB_STEPS :=
  (claim7_substep_structure 1 4 0 0 1 (fun _ => ⟨0, 0, 0⟩)
    ⟨[], ⟨0, 0, 1, 0, 0⟩⟩).2.2.2.2.1

/-! ## Ring shrink, removal and refill (update, after the escape check)

The source shrinks every visible ring by RING_SHRINK_RATE * dt, then pops
rings from the front while the innermost ring is visible and its radius
fell below MIN_VISUAL_RADIUS, then pushes new outer rings (radius = last
radius + RING_SPACING, or BASE_RING_RADIUS on an empty list; random angle,
alternating-sign random speed, random hue; visible) until RING_COUNT rings
are present. -/

def RING_COUNT : Nat := 25

/-- Shrink: only visible rings lose radius. -/
noncomputable def shrinkRings (amount : ℝ) (rs : List SceneRing) :
    List SceneRing :=
  rs.map fun r =>
    if r.visible then { r with radius := r.radius - amount } else r

open Classical in
/-- The removal while-loop: pop the head while it is visible and its
radius is below the minimum visual radius. -/
noncomputable def removeSmallRings (minR : ℝ) :
    List SceneRing → List SceneRing
  | [] => []
  | r :: rs =>
    if r.visible ∧ r.radius < minR then removeSmallRings minR rs
    else r :: rs

open Classical in
/-- The refill while-loop: while fewer than target rings remain, push a
new outer ring; f gives the three random draws of each pushed ring. -/
noncomputable def refillRings (baseR spacing w hole : ℝ) (target : Nat)
    (f : Nat → ℝ × ℝ × ℝ) (rs : List SceneRing) : List SceneRing :=
  if h : rs.length < target then
    refillRings baseR spacing w hole target f (rs ++
      [{ radius :=
           match rs.getLast? with
           | some last => last.radius + spacing
           | none => baseR
         width := w
         holeSize := hole
         angle := rand (f rs.length).1 0 (Real.pi * 2)
         speed := (if rs.length % 2 = 0 then 1 else -1) *
           rand (f rs.length).2.1 0.3 0.8
         color := rand (f rs.length).2.2 0 360
         visible := true }])
  else rs
termination_by target - rs.length
decreasing_by simp only [List.length_append, List.length_cons,
  List.length_nil]; omega

/-- The whole recycling phase of one frame: shrink, remove, refill. -/
noncomputable def recycleRings (shrinkAmount minR baseR spacing w hole : ℝ)
    (target : Nat) (f : Nat → ℝ × ℝ × ℝ) (rs : List SceneRing) :
    List SceneRing :=
  refillRings baseR spacing w hole target f
    (removeSmallRings minR (shrinkRings shrinkAmount rs))

/-- Claim C5, counterexample to the claim as stated: an innermost ring
whose radius (5) is below the minimum visual threshold (10) but which has
been consumed (visible = false) is NOT removed by the recycling step — the
removal loop requires rings[0].visible. -/
theorem claim5_counterexample :
    (⟨5, 1, Real.pi / 3, 0, 0, 7, false⟩ : SceneRing).radius < 10 ∧
    removeSmallRings 10 [⟨5, 1, Real.pi / 3, 0, 0, 7, false⟩] =
      [⟨5, 1, Real.pi / 3, 0, 0, 7, false⟩] := by
  refine ⟨by norm_num, ?_⟩
  rw [removeSmallRings, if_neg]
  rintro ⟨h1, -⟩
  simp at h1

/-- Claim C5 (amended): the innermost ring is removed by the recycling
step exactly when it is visible and its radius fell below the minimum
visual threshold; an invisible (consumed) innermost ring, or one at or
above the threshold, is kept. -/
theorem claim5_innermost_removal (minR : ℝ) (r : SceneRing)
    (rs : List SceneRing) :
    (r.visible = true → r.radius < minR →
      removeSmallRings minR (r :: rs) = removeSmallRings minR rs) ∧
    (r.visible = false → removeSmallRings minR (r :: rs) = r :: rs) ∧
    (minR ≤ r.radius → removeSmallRings minR (r :: rs) = r :: rs) := by
  refine ⟨?_, ?_, ?_⟩
  · intro hv hr
    rw [removeSmallRings, if_pos ⟨hv, hr⟩]
  · intro hv
    rw [removeSmallRings, if_neg]
    rintro ⟨h1, -⟩
    rw [hv] at h1
    exact Bool.false_ne_true h1
  · intro hge
    rw [removeSmallRings, if_neg]
    rintro ⟨-, h2⟩
    linarith

/-- Witness for claim C5: a visible innermost ring of radius 5 below the
threshold 10 is removed. -/
theorem claim5_innermost_removal_witness :
    removeSmallRings 10 [⟨5, 1, Real.pi / 3, 0, 0, 7, true⟩] =
      removeSmallRings 10 [] :=
  (claim5_innermost_removal 10 ⟨5, 1, Real.pi / 3, 0, 0, 7, true⟩ []).1 rfl
    (by norm_num)

/-- Claim C6, counterexample to the claim as stated: the shrink step does
not preserve strictly increasing radius order when visibility is mixed —
an invisible (consumed) inner ring keeps its radius while the visible
outer neighbor shrinks past it.  Radii 100 (invisible) and 101 (visible),
shrink amount 2. -/
theorem claim6_counterexample :
    List.Chain' (fun a b : SceneRing => a.radius < b.radius)
      [⟨100, 1, Real.pi / 3, 0, 0, 7, false⟩,
        ⟨101, 1, Real.pi / 3, 0, 0, 7, true⟩] ∧
    ¬ List.Chain' (fun a b : SceneRing => a.radius < b.radius)
      (shrinkRings 2
        [⟨100, 1, Real.pi / 3, 0, 0, 7, false⟩,
          ⟨101, 1, Real.pi / 3, 0, 0, 7, true⟩]) := by
  constructor
  · simp [List.chain'_cons]
    norm_num
  · rw [shrinkRings]
    simp [List.chain'_cons]
    norm_num

/-- With every ring visible, the uniform shrink preserves adjacent
strict order. -/
theorem shrinkRings_chain (amount : ℝ) (rs : List SceneRing)
    (hvis : ∀ r ∈ rs, r.visible = true)
    (hc : List.Chain' (fun a b : SceneRing => a.radius < b.radius) rs) :
    List.Chain' (fun a b : SceneRing => a.radius < b.radius)
      (shrinkRings amount rs) := by
  have hmap : shrinkRings amount rs =
      rs.map (fun r => { r with radius := r.radius - amount }) := by
    rw [shrinkRings]
    exact List.map_congr_left (fun a ha => by rw [if_pos (hvis a ha)])
  rw [hmap, List.chain'_map]
  exact hc.imp (fun a b hab => by dsimp only; linarith)

/-- Popping small rings from the front preserves adjacent strict order. -/
theorem removeSmallRings_chain (minR : ℝ) (rs : List SceneRing)
    (hc : List.Chain' (fun a b : SceneRing => a.radius < b.radius) rs) :
    List.Chain' (fun a b : SceneRing => a.radius < b.radius)
      (removeSmallRings minR rs) := by
  induction rs with
  | nil => exact hc
  | cons r tail ih =>
    rw [removeSmallRings]
    split
    · exact ih hc.tail
    · exact hc

/-- The refill loop appends radii last + spacing, preserving adjacent
strict order whenever the spacing is positive. -/
theorem refillRings_chain (baseR spacing w hole : ℝ) (target : Nat)
    (f : Nat → ℝ × ℝ × ℝ) (hs : 0 < spacing) (rs : List SceneRing)
    (hc : List.Chain' (fun a b : SceneRing => a.radius < b.radius) rs) :
    List.Chain' (fun a b : SceneRing => a.radius < b.radius)
      (refillRings baseR spacing w hole target f rs) := by
  have H : ∀ n (l : List SceneRing), target - l.length = n →
      List.Chain' (fun a b : SceneRing => a.radius < b.radius) l →
      List.Chain' (fun a b : SceneRing => a.radius < b.radius)
        (refillRings baseR spacing w hole target f l) := by
    intro n
    induction n with
    | zero =>
      intro l hn hcl
      rw [refillRings, dif_neg (by omega)]
      exact hcl
    | succ m ih =>
      intro l hn hcl
      rw [refillRings, dif_pos (by omega)]
      refine ih _ (by simp only [List.length_append, List.length_cons,
        List.length_nil]; omega) ?_
      rw [List.chain'_append]
      refine ⟨hcl, List.chain'_singleton _, ?_⟩
      intro a ha b hb
      simp only [List.head?_cons, Option.mem_def, Option.some.injEq] at hb
      subst hb
      dsimp only
      rw [show l.getLast? = some a from ha]
      show a.radius < a.radius + spacing
      linarith
  exact H (target - rs.length) rs rfl hc

/-- Claim C6 (amended): when every ring in the sequence is visible (as at
the start of a wave), a recycling step — shrink, removal, refill with
positive ring spacing — preserves the strictly-increasing-radius order of
adjacent rings; with mixed visibility the shrink step can break the order
(see the counterexample). -/
theorem claim6_ring_order (shrinkAmount minR baseR spacing w hole : ℝ)
    (target : Nat) (f : Nat → ℝ × ℝ × ℝ) (rs : List SceneRing)
    (hvis : ∀ r ∈ rs, r.visible = true)
    (hc : List.Chain' (fun a b : SceneRing => a.radius < b.radius) rs)
    (hs : 0 < spacing) :
    List.Chain' (fun a b : SceneRing => a.radius < b.radius)
      (recycleRings shrinkAmount minR baseR spacing w hole target f rs) :=
  refillRings_chain baseR spacing w hole target f hs _
    (removeSmallRings_chain minR _
      (shrinkRings_chain shrinkAmount rs hvis hc))

/-- Witness for claim C6: two visible rings of radii 100 and 102, shrink
amount 2, threshold 10, spacing 1, target 2. -/
theorem claim6_ring_order_witness :
    List.Chain' (fun a b : SceneRing => a.radius < b.radius)
      (recycleRings 2 10 50 1 1 (Real.pi / 3) 2 (fun _ => (0, 0, 0))
        [⟨100, 1, Real.pi / 3, 0, 0, 7, true⟩,
          ⟨102, 1, Real.pi / 3, 0, 0, 7, true⟩]) :=
  claim6_ring_order 2 10 50 1 1 (Real.pi / 3) 2 (fun _ => (0, 0, 0))
    [⟨100, 1, Real.pi / 3, 0, 0, 7, true⟩,
      ⟨102, 1, Real.pi / 3, 0, 0, 7, true⟩]
    (by
      intro r hr
      simp only [List.mem_cons, List.not_mem_nil, or_false] at hr
      rcases hr with rfl | rfl <;> rfl)
    (by
      simp [List.chain'_cons]
      norm_num)
    (by norm_num)

/-! ## Scene ownership root and the escape reset (resetBall)

The scene holds the ring sequence, the ball and the three particle pools
(sparkles, explosions = flash/debris, shockwaves).  resetBall repositions
the ball to the center with a fresh random direction at BALL_SPEED and
makes every ring visible again; it does not touch any particle pool. -/

structure Sparkle where
  x : ℝ
  y : ℝ
  vx : ℝ
  vy : ℝ
  life : ℝ
  maxLife : ℝ
  color : ℝ

/-- An entry of the explosions pool: the central flash, or a debris
particle (position, velocity, size, life, rotation state, color). -/
inductive ExplosionParticle where
  | flash (x y radius maxRadius life maxLife color : ℝ)
  | debris (x y vx vy radius life maxLife rotAngle rotSpeed color : ℝ)

structure Shockwave where
  x : ℝ
  y : ℝ
  radius : ℝ
  maxRadius : ℝ
  life : ℝ
  maxLife : ℝ
  color : ℝ

structure Scene where
  rings : List SceneRing
  ball : Ball
  sparkles : List Sparkle
  explosions : List ExplosionParticle
  shockwaves : List Shockwave

/-- resetBall of the source: ball back to the scene center, new random
direction at speed ballSpeed, every ring visible again.  (The call into
the ball-appearance policy only re-initializes render-only color fields
and is not modelled.) -/
noncomputable def resetBall (W H ballSpeed uAngle : ℝ) (sc : Scene) :
    Scene :=
  { sc with
    ball := { sc.ball with
      x := W / 2
      y := H / 2
      vx := Real.cos (rand uAngle 0 (Real.pi * 2)) * ballSpeed
      vy := Real.sin (rand uAngle 0 (Real.pi * 2)) * ballSpeed }
    rings := sc.rings.map fun r => { r with visible := true } }

/-- Claim C9, counterexample to the claim as stated: a sparkle present in
the pool before an escape reset is still present immediately after the
reset — resetBall does not clear any particle pool. -/
theorem claim9_counterexample :
    (⟨0, 0, 1, 1, 1 / 2, 7 / 10, 30⟩ : Sparkle) ∈
      (Scene.mk [] ⟨0, 0, 5, 1, 1⟩ [⟨0, 0, 1, 1, 1 / 2, 7 / 10, 30⟩] []
        []).sparkles ∧
    (⟨0, 0, 1, 1, 1 / 2, 7 / 10, 30⟩ : Sparkle) ∈
      (resetBall 480 480 240 0
        (Scene.mk [] ⟨0, 0, 5, 1, 1⟩ [⟨0, 0, 1, 1, 1 / 2, 7 / 10, 30⟩] []
          [])).sparkles := by
  constructor
  · simp
  · rw [resetBall]
    simp

/-- Claim C9 (amended): particles persist across an escape reset —
resetBall leaves all three particle pools unchanged (particles disappear
only through aging); the reset repositions the ball to the exact center
and makes every ring visible. -/
theorem claim9_particles_persist (W H ballSpeed uAngle : ℝ) (sc : Scene) :
    (resetBall W H ballSpeed uAngle sc).sparkles = sc.sparkles ∧
    (resetBall W H ballSpeed uAngle sc).explosions = sc.explosions ∧
    (resetBall W H ballSpeed uAngle sc).shockwaves = sc.shockwaves ∧
    (resetBall W H ballSpeed uAngle sc).ball.x = W / 2 ∧
    (resetBall W H ballSpeed uAngle sc).ball.y = H / 2 ∧
    ∀ r ∈ (resetBall W H ballSpeed uAngle sc).rings, r.visible = true := by
  refine ⟨rfl, rfl, rfl, rfl, rfl, ?_⟩
  intro r hr
  rw [resetBall] at hr
  simp only [List.mem_map] at hr
  obtain ⟨a, -, rfl⟩ := hr
  rfl
